import Mathlib

/-!
Formal model of `cityssm/node-scheduled-task` (`src/index.ts`), class `ScheduledTask`.

The class holds mutable fields `#lastRunMillis`, `#minimumIntervalMillis`,
`#taskHasStarted`, `#job`, `#schedule`, the exit-hook guard flag, the read-only
`#catchErrors`, and a capacity-1 `Sema` from `async-sema`.  Times are epoch
milliseconds, modelled as `Int`; a JS `Date` is modelled by its `getTime()`
value.  The external `node-schedule` collaborator is modelled as an
environment mapping a task name and schedule spec to an optional job handle
(`null` result = `none`) plus an optional next-invocation time.

Two complementary views of `runTask` are embedded:
* a sequential view of the body after the semaphore is acquired
  (`src/index.ts` lines 145-169), parameterised by the `Date.now()` reading at
  the gate check, the `Date.now()` reading in the `finally` block, and the
  outcome of the awaited task function; it also records the ordered trace of
  effects (acquire, work invocation, semaphore release, last-run update,
  rethrow);
* an interleaving small-step view (`Step`) of any number of overlapping
  `runTask` invocations against the shared `Sema(1)`, faithful to
  `async-sema`: `acquire` takes a free token or joins a FIFO queue,
  `release` hands the token to the queue head or returns it to the pool, and
  `nrWaiting()` is the queue length (a current holder is not counted).
-/

namespace ScheduledTask

/-- A `node-schedule` `Spec` is opaque to `ScheduledTask`; the class only
stores it and passes it to `scheduleJob`.  The private field `#schedule` is
initialised to the object meaning "every day at 00:00:00". -/
inductive Schedule where
  | defaultDailyMidnight : Schedule
  | spec (raw : String) : Schedule
deriving DecidableEq

/-- Opaque handle for a `node-schedule` `Job`. -/
abbrev Job := Nat

/-- Errors thrown synchronously by the class: `alreadyStartedError` (guards in
`setMinimumIntervalMillis`, `setSchedule`, `startTask`), the
`Task has not started.` error in `stopTask`, and the two `Error`s thrown by
`startTask` when `scheduleJob` returns `null` or `nextInvocation()` returns
`null`. -/
inductive TaskError where
  | alreadyStarted : TaskError
  | notStarted : TaskError
  | scheduleFailed : TaskError
  | nextInvocationFailed : TaskError
deriving DecidableEq

/-- The mutable fields of a `ScheduledTask` instance (the `Sema` is modelled
separately, in the small-step view).  `job = none` models the field being
`undefined`, `job = some none` models `null`, `job = some (some j)` a real
handle. -/
structure TaskState where
  lastRunMillis : Int
  minimumIntervalMillis : Int
  catchErrors : Bool
  taskHasStarted : Bool
  job : Option (Option Job)
  schedule : Schedule
  exitHookIsInitialized : Bool
deriving DecidableEq

/-- `setLastRunMillis(lastRunMillis)`: unguarded assignment to
`#lastRunMillis`. -/
def setLastRunMillis (s : TaskState) (lastRunMillis : Int) : TaskState :=
  { s with lastRunMillis := lastRunMillis }

/-- `setLastRunTime(lastRun)`: delegates to `setLastRunMillis` with
`lastRun.getTime()`; the `Date` is modelled by its millisecond value. -/
def setLastRunTime (s : TaskState) (lastRun : Int) : TaskState :=
  setLastRunMillis s lastRun

/-- `getLastRunMillis()`. -/
def getLastRunMillis (s : TaskState) : Int :=
  s.lastRunMillis

/-- `hasStarted()`. -/
def hasStarted (s : TaskState) : Bool :=
  s.taskHasStarted

/-- `setMinimumIntervalMillis(minimumIntervalMillis)`: throws
`alreadyStartedError` if the task has started, otherwise assigns the field.
The second component is the thrown error, if any; the first is the state of
the instance when the call returns or the throw propagates. -/
def setMinimumIntervalMillis (s : TaskState) (minimumIntervalMillis : Int) :
    TaskState × Option TaskError :=
  if s.taskHasStarted then (s, some .alreadyStarted)
  else ({ s with minimumIntervalMillis := minimumIntervalMillis }, none)

/-- `setSchedule(schedule)`: throws `alreadyStartedError` if the task has
started, otherwise assigns `#schedule`. -/
def setSchedule (s : TaskState) (schedule : Schedule) :
    TaskState × Option TaskError :=
  if s.taskHasStarted then (s, some .alreadyStarted)
  else ({ s with schedule := schedule }, none)

/-- The external `node-schedule` service: `scheduleJob(name, spec, cb)`
returning a job or `null`, and `job.nextInvocation()` returning a time or
`null`. -/
structure SchedulerEnv where
  scheduleJob : String → Schedule → Option Job
  nextInvocation : Job → Option Int

/-- `startTask()` (`src/index.ts` lines 177-222): throws
`alreadyStartedError` if started; otherwise sets `#taskHasStarted = true`,
then assigns `#job = scheduleJob(...)` and throws if it is `null`, then
throws if `#job.nextInvocation()` is `null`, then installs the exit hook once.
The `#taskHasStarted = true` assignment precedes the two failure checks and is
not rolled back when they throw. -/
def startTask (env : SchedulerEnv) (taskName : String) (s : TaskState) :
    TaskState × Option TaskError :=
  if s.taskHasStarted then (s, some .alreadyStarted)
  else
    let s1 := { s with taskHasStarted := true }
    match env.scheduleJob taskName s1.schedule with
    | none => ({ s1 with job := some none }, some .scheduleFailed)
    | some j =>
      let s2 := { s1 with job := some (some j) }
      match env.nextInvocation j with
      | none => (s2, some .nextInvocationFailed)
      | some _ =>
        if s2.exitHookIsInitialized then (s2, none)
        else ({ s2 with exitHookIsInitialized := true }, none)

/-- `stopTask()` (`src/index.ts` lines 237-247): throws
`Task has not started.` if not started; otherwise cancels the job (external
effect) and sets `#taskHasStarted = false`. -/
def stopTask (s : TaskState) : TaskState × Option TaskError :=
  if s.taskHasStarted then ({ s with taskHasStarted := false }, none)
  else (s, some .notStarted)

/-- Outcome of awaiting the user task function: it returns, or it throws. -/
inductive WorkOutcome where
  | success : WorkOutcome
  | failure : WorkOutcome
deriving DecidableEq

/-- Ordered observable effects of one `runTask()` call: semaphore acquire,
invocation of the task function, semaphore release, the `setLastRunTime`
update in the `finally` block, and the rethrow of the work error to the
caller. -/
inductive Event where
  | acquire : Event
  | invokeWork : Event
  | release : Event
  | updateLastRun (t : Int) : Event
  | throwError : Event
deriving DecidableEq

/-- Result of one `runTask()` call: the instance state when the returned
promise settles, the final value of the local `taskRun` flag (true exactly
when the task function was invoked), whether the promise rejects, and the
trace of effects in order. -/
structure RunResult where
  state : TaskState
  taskRun : Bool
  thrown : Bool
  trace : List Event
deriving DecidableEq

/-- The body of `runTask()` after `await this.#semaphore.acquire()`
(`src/index.ts` lines 145-169), as a function of the `Date.now()` reading at
the gate check (`checkTime`) and the `Date.now()` reading in the `finally`
block (`completionTime`).  `taskRun` starts `false`; if
`checkTime - lastRunMillis >= minimumIntervalMillis` then `taskRun` is set and
the task function runs with outcome `w`; a thrown error is rethrown only when
`catchErrors` is false, after the `finally` block has released the semaphore
and — because `taskRun` is already `true` — updated `#lastRunMillis`. -/
def runTask (s : TaskState) (checkTime completionTime : Int) (w : WorkOutcome) :
    RunResult :=
  if checkTime - s.lastRunMillis ≥ s.minimumIntervalMillis then
    match w with
    | .success =>
      { state := setLastRunTime s completionTime
        taskRun := true
        thrown := false
        trace := [.acquire, .invokeWork, .release, .updateLastRun completionTime] }
    | .failure =>
      if s.catchErrors then
        { state := setLastRunTime s completionTime
          taskRun := true
          thrown := false
          trace := [.acquire, .invokeWork, .release, .updateLastRun completionTime] }
      else
        { state := setLastRunTime s completionTime
          taskRun := true
          thrown := true
          trace := [.acquire, .invokeWork, .release, .updateLastRun completionTime,
                    .throwError] }
  else
    { state := s
      taskRun := false
      thrown := false
      trace := [.acquire, .release] }

/-- Per-invocation progress of one `runTask()` call in the interleaving view.
`entered` is the call before its `await acquire()` resolves a token attempt;
`waiting` is queued inside the `Sema`; `holding` has the token but has not yet
executed the gate check (the continuation after `await acquire()` is
scheduled); `running` is awaiting the task function with `taskRun = true`;
`finished` has executed the `finally` block and settled. -/
inductive Phase where
  | entered : Phase
  | waiting : Phase
  | holding : Phase
  | running : Phase
  | finished : Phase
deriving DecidableEq

/-- Global state of the interleaving view: the shared instance fields, the
`Sema(1)` (free-token count plus FIFO queue of waiting invocation ids), the
per-invocation phases (the id is the list index), and the current
`Date.now()` value. -/
structure SysState where
  gate : TaskState
  semFree : Nat
  semQueue : List Nat
  invs : List Phase
  now : Int
deriving DecidableEq

/-- `Sema.nrWaiting()` from `async-sema`: the number of queued acquirers; a
current token holder is not counted. -/
def SysState.nrWaiting (st : SysState) : Nat :=
  st.semQueue.length

/-- `canRunTask()` (`src/index.ts` lines 132-137):
`#semaphore.nrWaiting() === 0 && Date.now() - #lastRunMillis >= #minimumIntervalMillis`.
A pure read of the state: it mutates nothing. -/
def canRunTask (st : SysState) : Bool :=
  st.nrWaiting == 0 &&
    decide (st.now - st.gate.lastRunMillis ≥ st.gate.minimumIntervalMillis)

/-- `Sema.release()` from `async-sema`: if the waiting queue is non-empty the
token is handed directly to the queue head (whose `acquire()` promise
resolves, making it a holder), otherwise the token returns to the free
pool. -/
def semRelease (st : SysState) : SysState :=
  match st.semQueue with
  | [] => { st with semFree := st.semFree + 1 }
  | j :: rest => { st with semQueue := rest, invs := st.invs.set j .holding }

/-- The `finally` block on the skip path: release the semaphore; `taskRun` is
`false` so `#lastRunMillis` is untouched. -/
def finishSkip (st : SysState) (i : Nat) : SysState :=
  semRelease { st with invs := st.invs.set i .finished }

/-- The `finally` block after the task function settles: release the
semaphore, then (since `taskRun` is `true`) `setLastRunTime(new Date())` with
the current time — on success and on failure alike. -/
def finishRun (st : SysState) (i : Nat) : SysState :=
  let st1 := semRelease { st with invs := st.invs.set i .finished }
  { st1 with gate := setLastRunTime st1.gate st1.now }

/-- One interleaving step: a new `runTask()` call arrives (from the trigger or
a manual call), time advances, an `acquire()` resolves against a free token or
joins the queue, the gate check runs or skips, or the awaited task function
settles (successfully or not — the `finally` block is the same, and any
rethrow happens after it). -/
inductive Step : SysState → SysState → Prop where
  | invoke (st : SysState) :
      Step st { st with invs := st.invs ++ [Phase.entered] }
  | tick (st : SysState) (t : Int) (h : st.now ≤ t) :
      Step st { st with now := t }
  | acquireFree (st : SysState) (i k : Nat)
      (hp : st.invs[i]? = some .entered) (hf : st.semFree = k + 1) :
      Step st { st with semFree := k, invs := st.invs.set i .holding }
  | acquireWait (st : SysState) (i : Nat)
      (hp : st.invs[i]? = some .entered) (hf : st.semFree = 0) :
      Step st { st with semQueue := st.semQueue ++ [i], invs := st.invs.set i .waiting }
  | gateRun (st : SysState) (i : Nat)
      (hp : st.invs[i]? = some .holding)
      (hg : st.now - st.gate.lastRunMillis ≥ st.gate.minimumIntervalMillis) :
      Step st { st with invs := st.invs.set i .running }
  | gateSkip (st : SysState) (i : Nat)
      (hp : st.invs[i]? = some .holding)
      (hg : st.now - st.gate.lastRunMillis < st.gate.minimumIntervalMillis) :
      Step st (finishSkip st i)
  | workSettled (st : SysState) (i : Nat)
      (hp : st.invs[i]? = some .running) :
      Step st (finishRun st i)

/-- Reachability in zero or more interleaving steps. -/
def Reachable (st st' : SysState) : Prop :=
  Relation.ReflTransGen Step st st'

/-- The state of a freshly constructed instance: one free token in the
`Sema(1)`, empty queue, no invocations yet. -/
def initState (g : TaskState) (t0 : Int) : SysState :=
  { gate := g, semFree := 1, semQueue := [], invs := [], now := t0 }

/-- Phases that hold the semaphore token. -/
def holdsToken : Phase → Bool
  | .holding => true
  | .running => true
  | _ => false

/-- Number of invocations currently holding the token. -/
def holderCount (st : SysState) : Nat :=
  st.invs.countP holdsToken

/-- Number of invocations currently awaiting the task function. -/
def runningCount (st : SysState) : Nat :=
  st.invs.countP (fun p => p == Phase.running)

/-- The semaphore invariant of the interleaving view: token conservation
(holders plus free tokens is exactly the capacity 1), every queued id is a
`waiting` invocation, and no id is queued twice. -/
structure SemInv (st : SysState) : Prop where
  token : holderCount st + st.semFree = 1
  queueWaiting : ∀ j ∈ st.semQueue, st.invs[j]? = some Phase.waiting
  queueNodup : st.semQueue.Nodup

/-- A task state with the constructor's default option values:
`lastRunMillis = 0`, `minimumIntervalMillis = 0`, `catchErrors = true`, not
started, `#job` unassigned, default daily schedule, exit hook not yet
installed. -/
def defaultTask : TaskState :=
  { lastRunMillis := 0
    minimumIntervalMillis := 0
    catchErrors := true
    taskHasStarted := false
    job := none
    schedule := .defaultDailyMidnight
    exitHookIsInitialized := false }

/-- One serialized `runTask()` attempt in a sequence: the `Date.now()` reading
at its gate check, the reading in its `finally` block, and the task-function
outcome if invoked. -/
structure Attempt where
  checkTime : Int
  completionTime : Int
  outcome : WorkOutcome

/-- Run one attempt: the instance state afterwards and whether the task
function was invoked. -/
def stepAttempt (s : TaskState) (a : Attempt) : TaskState × Bool :=
  ((runTask s a.checkTime a.completionTime a.outcome).state,
   (runTask s a.checkTime a.completionTime a.outcome).taskRun)

/-- Run a list of attempts in order (the semaphore serializes overlapping
`runTask()` calls into such a sequence); returns the final state and the
per-attempt `taskRun` flags. -/
def runSeq (s : TaskState) : List Attempt → TaskState × List Bool
  | [] => (s, [])
  | a :: rest =>
    ((runSeq (stepAttempt s a).1 rest).1,
     (stepAttempt s a).2 :: (runSeq (stepAttempt s a).1 rest).2)

/-- Phases that hold or wait on the semaphore permit — the condition claim C5
reads into `canRunTask`. -/
def holdsOrWaits : Phase → Bool
  | .waiting => true
  | .holding => true
  | .running => true
  | _ => false

/-- The property the specification ascribes to `canRunTask()`: no invocation
currently holding or waiting on the exclusivity permit, and elapsed time at
least the minimum interval.  (Stated from the spec's words, to compare with
`canRunTask` as implemented.) -/
def specCanRun (st : SysState) : Bool :=
  st.invs.all (fun p => !holdsOrWaits p) &&
    decide (st.now - st.gate.lastRunMillis ≥ st.gate.minimumIntervalMillis)

/-- A default-configured task with `catchErrors = false`
(`errorPolicy = propagate`). -/
def propagateTask : TaskState :=
  { defaultTask with catchErrors := false }

/-- A default-configured task already marked started. -/
def startedTask : TaskState :=
  { defaultTask with taskHasStarted := true }

/-- A trigger environment that rejects every schedule
(`scheduleJob` returns `null`). -/
def rejectEnv : SchedulerEnv :=
  { scheduleJob := fun _ _ => none, nextInvocation := fun _ => none }

/-- A trigger environment that accepts every schedule and reports a next
invocation time. -/
def acceptEnv : SchedulerEnv :=
  { scheduleJob := fun _ _ => some 0, nextInvocation := fun _ => some 1000 }

/-- Intermediate state: one `runTask()` call has arrived. -/
def c5Entered : SysState :=
  { initState defaultTask 0 with invs := [Phase.entered] }

/-- Intermediate state: the call holds the token, gate check pending. -/
def c5Holding : SysState :=
  { initState defaultTask 0 with semFree := 0, invs := [Phase.holding] }

/-- State with the task function in flight and nobody queued: the permit is
held, `nrWaiting()` is `0`. -/
def c5Running : SysState :=
  { initState defaultTask 0 with semFree := 0, invs := [Phase.running] }

/-- A default task with a 5 ms minimum interval. -/
def intervalTask : TaskState :=
  { defaultTask with minimumIntervalMillis := 5 }

/-- Replacing a known element changes a `countP` by the difference of the
predicate on the old and new elements (stated additively). -/
theorem countP_set_add {α : Type} (p : α → Bool) :
    ∀ (l : List α) (i : Nat) (a b : α), l[i]? = some b →
      (l.set i a).countP p + (if p b then 1 else 0)
        = l.countP p + (if p a then 1 else 0)
  | [], i, a, b, h => by simp at h
  | x :: t, 0, a, b, h => by
    simp only [List.getElem?_cons_zero, Option.some.injEq] at h
    subst h
    simp only [List.set_cons_zero, List.countP_cons]
    omega
  | x :: t, i + 1, a, b, h => by
    have ih := countP_set_add p t i a b (by simpa using h)
    simp only [List.set_cons_succ, List.countP_cons]
    omega

/-- `Sema.release()` restores the semaphore invariant from a state where one
token is in the releasing invocation's hand (so conserved tokens count one
short of the capacity). -/
theorem semInv_semRelease {m : SysState}
    (htok : holderCount m + m.semFree + 1 = 1)
    (hq : ∀ j ∈ m.semQueue, m.invs[j]? = some Phase.waiting)
    (hnd : m.semQueue.Nodup) :
    SemInv (semRelease m) := by
  have hc0 : holderCount m = 0 := by omega
  have hf0 : m.semFree = 0 := by omega
  cases hQ : m.semQueue with
  | nil =>
    refine ⟨?_, ?_, ?_⟩ <;> simp only [semRelease, hQ]
    · simp only [holderCount] at hc0 ⊢
      omega
    · simp
    · simp
  | cons jh rest =>
    have hjh : m.invs[jh]? = some Phase.waiting :=
      hq jh (by rw [hQ]; exact List.mem_cons_self jh rest)
    have hset := countP_set_add holdsToken m.invs jh Phase.holding Phase.waiting hjh
    have hnd' : jh ∉ rest ∧ rest.Nodup := List.nodup_cons.mp (hQ ▸ hnd)
    refine ⟨?_, ?_, ?_⟩ <;> simp only [semRelease, hQ]
    · simp [holdsToken] at hset
      simp only [holderCount] at hc0 ⊢
      omega
    · intro j hj
      have hjq : m.invs[j]? = some Phase.waiting :=
        hq j (by rw [hQ]; exact List.mem_cons_of_mem jh hj)
      have hne : jh ≠ j := fun he => hnd'.1 (he ▸ hj)
      rw [List.getElem?_set_ne hne]
      exact hjq
    · exact hnd'.2

/-- Every interleaving step preserves the semaphore invariant. -/
theorem semInv_step {st st' : SysState} (h : Step st st') (inv : SemInv st) :
    SemInv st' := by
  cases h with
  | invoke =>
    refine ⟨?_, ?_, inv.queueNodup⟩
    · have := inv.token
      simp [holderCount, holdsToken] at this ⊢
      omega
    · intro j hj
      have hjq := inv.queueWaiting j hj
      have hlt : j < st.invs.length := (List.getElem?_eq_some.mp hjq).1
      rw [List.getElem?_append_left hlt]
      exact hjq
  | tick t ht =>
    exact ⟨inv.token, inv.queueWaiting, inv.queueNodup⟩
  | acquireFree i k hp hf =>
    have hset := countP_set_add holdsToken st.invs i Phase.holding Phase.entered hp
    refine ⟨?_, ?_, inv.queueNodup⟩
    · have := inv.token
      simp [holdsToken] at hset
      simp only [holderCount] at this hset ⊢
      omega
    · intro j hj
      have hjq := inv.queueWaiting j hj
      have hne : i ≠ j := fun he => by
        rw [he] at hp
        rw [hp] at hjq
        exact absurd (Option.some.inj hjq) (by intro hc; cases hc)
      rw [List.getElem?_set_ne hne]
      exact hjq
  | acquireWait i hp hf =>
    have hset := countP_set_add holdsToken st.invs i Phase.waiting Phase.entered hp
    have hnotq : i ∉ st.semQueue := fun hmem => by
      have := inv.queueWaiting i hmem
      rw [hp] at this
      exact absurd (Option.some.inj this) (by intro hc; cases hc)
    refine ⟨?_, ?_, ?_⟩
    · have := inv.token
      simp [holdsToken] at hset
      simp only [holderCount] at this hset ⊢
      omega
    · intro j hj
      rcases List.mem_append.mp hj with hjq | hji
      · have hjw := inv.queueWaiting j hjq
        have hne : i ≠ j := fun he => by
          rw [he] at hp
          rw [hp] at hjw
          exact absurd (Option.some.inj hjw) (by intro hc; cases hc)
        rw [List.getElem?_set_ne hne]
        exact hjw
      · have hji' : j = i := by simpa using hji
        subst hji'
        have hlt : j < st.invs.length := (List.getElem?_eq_some.mp hp).1
        exact List.getElem?_set_self (by simpa using hlt)
    · exact List.Nodup.append inv.queueNodup (List.nodup_singleton i)
        (fun a ha hb => hnotq (by rw [List.mem_singleton.mp hb] at ha; exact ha))
  | gateRun i hp hg =>
    have hset := countP_set_add holdsToken st.invs i Phase.running Phase.holding hp
    refine ⟨?_, ?_, inv.queueNodup⟩
    · have := inv.token
      simp [holdsToken] at hset
      simp only [holderCount] at this hset ⊢
      omega
    · intro j hj
      have hjq := inv.queueWaiting j hj
      have hne : i ≠ j := fun he => by
        rw [he] at hp
        rw [hp] at hjq
        exact absurd (Option.some.inj hjq) (by intro hc; cases hc)
      rw [List.getElem?_set_ne hne]
      exact hjq
  | gateSkip i hp hg =>
    have hset := countP_set_add holdsToken st.invs i Phase.finished Phase.holding hp
    simp [holdsToken] at hset
    refine semInv_semRelease ?_ ?_ inv.queueNodup
    · have := inv.token
      simp only [holderCount] at this hset ⊢
      omega
    · intro j hj
      have hjq := inv.queueWaiting j hj
      have hne : i ≠ j := fun he => by
        rw [he] at hp
        rw [hp] at hjq
        exact absurd (Option.some.inj hjq) (by intro hc; cases hc)
      rw [List.getElem?_set_ne hne]
      exact hjq
  | workSettled i hp =>
    have hset := countP_set_add holdsToken st.invs i Phase.finished Phase.running hp
    simp [holdsToken] at hset
    have h1 : SemInv (semRelease { st with invs := st.invs.set i .finished }) := by
      refine semInv_semRelease ?_ ?_ inv.queueNodup
      · have := inv.token
        simp only [holderCount] at this hset ⊢
        omega
      · intro j hj
        have hjq := inv.queueWaiting j hj
        have hne : i ≠ j := fun he => by
          rw [he] at hp
          rw [hp] at hjq
          exact absurd (Option.some.inj hjq) (by intro hc; cases hc)
        rw [List.getElem?_set_ne hne]
        exact hjq
    exact ⟨h1.token, h1.queueWaiting, h1.queueNodup⟩

/-- The initial state satisfies the semaphore invariant. -/
theorem semInv_init (g : TaskState) (t0 : Int) : SemInv (initState g t0) := by
  refine ⟨?_, ?_, ?_⟩ <;> simp [initState, holderCount]

/-- The semaphore invariant holds in every reachable state. -/
theorem semInv_reachable {st st' : SysState} (h : Reachable st st')
    (inv : SemInv st) : SemInv st' := by
  induction h with
  | refl => exact inv
  | tail _ hstep ih => exact semInv_step hstep ih

/-- The `taskRun` flag ends `true` exactly when the gate check passed. -/
theorem runTask_taskRun_true_iff (s : TaskState) (t c : Int) (w : WorkOutcome) :
    (runTask s t c w).taskRun = true ↔
      t - s.lastRunMillis ≥ s.minimumIntervalMillis := by
  by_cases hge : t - s.lastRunMillis ≥ s.minimumIntervalMillis
  · rw [runTask.eq_def, if_pos hge]
    cases w
    · simpa using hge
    · by_cases hc : s.catchErrors <;> simp [hc, hge]
  · rw [runTask.eq_def, if_neg hge]
    simpa using hge

/-- When the task function ran, the `finally` block set `#lastRunMillis` to
the completion-time reading, and the other configuration is untouched. -/
theorem runTask_state_of_run (s : TaskState) (t c : Int) (w : WorkOutcome)
    (h : (runTask s t c w).taskRun = true) :
    (runTask s t c w).state.lastRunMillis = c ∧
    (runTask s t c w).state.minimumIntervalMillis = s.minimumIntervalMillis := by
  have hge := (runTask_taskRun_true_iff s t c w).mp h
  rw [runTask.eq_def, if_pos hge]
  cases w
  · exact ⟨rfl, rfl⟩
  · by_cases hc : s.catchErrors <;>
      simp [hc, setLastRunTime, setLastRunMillis]

/-- A skipped attempt leaves the instance state exactly as it was. -/
theorem runTask_state_of_skip (s : TaskState) (t c : Int) (w : WorkOutcome)
    (h : (runTask s t c w).taskRun = false) :
    (runTask s t c w).state = s := by
  by_cases hge : t - s.lastRunMillis ≥ s.minimumIntervalMillis
  · exact absurd ((runTask_taskRun_true_iff s t c w).mpr hge) (by simp [h])
  · rw [runTask.eq_def, if_neg hge]

/-- A run of attempts in which the task function was never invoked leaves the
instance state unchanged. -/
theorem runSeq_all_skipped (s : TaskState) (as : List Attempt)
    (h : ∀ b ∈ (runSeq s as).2, b = false) : (runSeq s as).1 = s := by
  induction as generalizing s with
  | nil => rfl
  | cons a rest ih =>
    have hb : (stepAttempt s a).2 = false :=
      h _ (by simp [runSeq])
    have hs : (stepAttempt s a).1 = s :=
      runTask_state_of_skip s a.checkTime a.completionTime a.outcome hb
    have htail : ∀ b ∈ (runSeq (stepAttempt s a).1 rest).2, b = false :=
      fun b hb' => h b (List.mem_cons_of_mem _ hb')
    rw [hs] at htail
    simp only [runSeq]
    rw [hs]
    exact ih s htail

/-- C1: for every call of `runTask`, after the exclusivity permit is
acquired, if the elapsed time since `#lastRunMillis` is below
`#minimumIntervalMillis` the task function is not invoked and the instance
state (in particular `#lastRunMillis`) is unchanged; if the elapsed time is at
least the minimum interval and the task function completes successfully,
`#lastRunMillis` is set to the `Date.now()` reading at completion. -/
theorem runTask_gate_skips_and_success_updates (s : TaskState)
    (checkTime completionTime : Int) (w : WorkOutcome) :
    (checkTime - s.lastRunMillis < s.minimumIntervalMillis →
      (runTask s checkTime completionTime w).taskRun = false ∧
      Event.invokeWork ∉ (runTask s checkTime completionTime w).trace ∧
      (runTask s checkTime completionTime w).state = s) ∧
    (checkTime - s.lastRunMillis ≥ s.minimumIntervalMillis → w = .success →
      (runTask s checkTime completionTime w).state.lastRunMillis
        = completionTime) := by
  constructor
  · intro hlt
    rw [runTask.eq_def, if_neg (by omega)]
    exact ⟨rfl, by simp, rfl⟩
  · intro hge hw
    subst hw
    rw [runTask.eq_def, if_pos hge]
    rfl

/-- Witness for C1 at concrete inputs: a skip with a 10 ms interval at
elapsed 3 ms, and a successful run with a 0 ms interval completing at 9. -/
theorem runTask_gate_skips_and_success_updates_witness :
    (runTask { defaultTask with minimumIntervalMillis := 10 } 3 9
        .success).taskRun = false ∧
    (runTask defaultTask 5 9 .success).state.lastRunMillis = 9 :=
  ⟨((runTask_gate_skips_and_success_updates
      { defaultTask with minimumIntervalMillis := 10 } 3 9 .success).1
      (by decide)).1,
   (runTask_gate_skips_and_success_updates defaultTask 5 9 .success).2
      (by decide) rfl⟩

/-- Counterexample to C2: with `catchErrors = false`, a run whose task
function throws still updates `#lastRunMillis` in the `finally` block
(`taskRun` was set to `true` before the `await`), so the claim that
`#lastRunMillis` is left unchanged is false: here it moves from `0` to `7`
even though the returned promise rejects. -/
theorem runTask_propagate_keeps_lastRun_cex :
    (runTask propagateTask 5 7 .failure).thrown = true ∧
    (runTask propagateTask 5 7 .failure).state.lastRunMillis
      ≠ propagateTask.lastRunMillis := by
  decide

/-- C2 as amended: with `catchErrors = false`, if the task function throws
after the gate check passed, the returned promise rejects, and
`#lastRunMillis` is updated to the completion-time reading, exactly as for a
successful run — the failed run is recorded like a completed run. -/
theorem runTask_propagate_rejects_and_updates (s : TaskState)
    (checkTime completionTime : Int)
    (hcatch : s.catchErrors = false)
    (hge : checkTime - s.lastRunMillis ≥ s.minimumIntervalMillis) :
    (runTask s checkTime completionTime .failure).thrown = true ∧
    (runTask s checkTime completionTime .failure).state.lastRunMillis
      = completionTime := by
  rw [runTask.eq_def, if_pos hge]
  simp [hcatch, setLastRunTime, setLastRunMillis]

/-- Witness for the amended C2 at a concrete failing run. -/
theorem runTask_propagate_rejects_and_updates_witness :
    (runTask propagateTask 6 8 .failure).thrown = true ∧
    (runTask propagateTask 6 8 .failure).state.lastRunMillis = 8 :=
  runTask_propagate_rejects_and_updates propagateTask 6 8 rfl (by decide)

/-- C6: on every exit path of `runTask` — skip, successful completion, or a
throwing task function under either error policy — the semaphore is released
exactly once, and when the error propagates (the promise rejects) the rethrow
is the last effect, strictly after the release. -/
theorem runTask_releases_on_every_path (s : TaskState)
    (checkTime completionTime : Int) (w : WorkOutcome) :
    (runTask s checkTime completionTime w).trace.count Event.release = 1 ∧
    ((runTask s checkTime completionTime w).thrown = true →
      (runTask s checkTime completionTime w).trace.getLast?
          = some Event.throwError ∧
      Event.release ∈ (runTask s checkTime completionTime w).trace.dropLast) := by
  rw [runTask.eq_def]
  split
  · cases w
    · simp [List.count_cons, List.count_nil]
    · by_cases hc : s.catchErrors <;>
        simp [hc, List.count_cons, List.count_nil, List.getLast?]
  · simp [List.count_cons, List.count_nil]

/-- Witness for C6 at a concrete rejecting run. -/
theorem runTask_releases_on_every_path_witness :
    (runTask propagateTask 5 9 .failure).trace.getLast?
        = some Event.throwError ∧
    Event.release ∈ (runTask propagateTask 5 9 .failure).trace.dropLast :=
  (runTask_releases_on_every_path propagateTask 5 9 .failure).2 (by decide)

/-- C10: in every lifecycle state, `setLastRunMillis` (and `setLastRunTime`,
which delegates to it with the date's millisecond value) succeeds without
throwing — unlike `setMinimumIntervalMillis` and `setSchedule`, it has no
`#taskHasStarted` guard — stores exactly the given value, which
`getLastRunMillis` then returns, and changes no other field. -/
theorem setLastRunMillis_unguarded_exact (s : TaskState) (m dateMillis : Int) :
    (setLastRunMillis s m).lastRunMillis = m ∧
    getLastRunMillis (setLastRunMillis s m) = m ∧
    (setLastRunMillis s m).minimumIntervalMillis = s.minimumIntervalMillis ∧
    (setLastRunMillis s m).catchErrors = s.catchErrors ∧
    (setLastRunMillis s m).taskHasStarted = s.taskHasStarted ∧
    (setLastRunMillis s m).job = s.job ∧
    (setLastRunMillis s m).schedule = s.schedule ∧
    (setLastRunMillis s m).exitHookIsInitialized = s.exitHookIsInitialized ∧
    setLastRunTime s dateMillis = setLastRunMillis s dateMillis :=
  ⟨rfl, rfl, rfl, rfl, rfl, rfl, rfl, rfl, rfl⟩

/-- C7: each lifecycle-misuse call — `startTask` while started, `stopTask`
while not started, `setMinimumIntervalMillis` or `setSchedule` while
started — throws synchronously and returns the instance state entirely
unchanged. -/
theorem misuse_throws_without_side_effects (env : SchedulerEnv)
    (taskName : String) (s s' : TaskState) (m : Int) (sch : Schedule)
    (hstarted : s.taskHasStarted = true) (hidle : s'.taskHasStarted = false) :
    startTask env taskName s = (s, some .alreadyStarted) ∧
    setMinimumIntervalMillis s m = (s, some .alreadyStarted) ∧
    setSchedule s sch = (s, some .alreadyStarted) ∧
    stopTask s' = (s', some .notStarted) := by
  refine ⟨?_, ?_, ?_, ?_⟩
  · rw [startTask, if_pos (by simp [hstarted])]
  · rw [setMinimumIntervalMillis, if_pos (by simp [hstarted])]
  · rw [setSchedule, if_pos (by simp [hstarted])]
  · rw [stopTask, if_neg (by simp [hidle])]

/-- Witness for C7 at concrete states. -/
theorem misuse_throws_without_side_effects_witness :
    startTask acceptEnv "t" startedTask = (startedTask, some .alreadyStarted) ∧
    setMinimumIntervalMillis startedTask 5
        = (startedTask, some .alreadyStarted) ∧
    setSchedule startedTask (.spec "* * * * * *")
        = (startedTask, some .alreadyStarted) ∧
    stopTask defaultTask = (defaultTask, some .notStarted) :=
  misuse_throws_without_side_effects acceptEnv "t" startedTask defaultTask 5
    (.spec "* * * * * *") rfl rfl

/-- Counterexample to C3: with a trigger that rejects the schedule,
`startTask` from the idle state raises, but the task does not remain idle:
`hasStarted()` returns `true` afterwards, because `#taskHasStarted = true` is
assigned before `scheduleJob` is consulted and is not rolled back. -/
theorem startTask_failure_not_idle_cex :
    (startTask rejectEnv "task" defaultTask).2 = some .scheduleFailed ∧
    hasStarted (startTask rejectEnv "task" defaultTask).1 = true := by
  decide

/-- C3 as amended: when `startTask` on an idle task fails, the failure is one
of the two trigger-registration errors, raised synchronously — but start
partially succeeds: `hasStarted()` returns `true` afterwards. -/
theorem startTask_failure_marks_started (env : SchedulerEnv)
    (taskName : String) (s : TaskState) (e : TaskError)
    (hidle : s.taskHasStarted = false)
    (hfail : (startTask env taskName s).2 = some e) :
    (e = .scheduleFailed ∨ e = .nextInvocationFailed) ∧
    hasStarted (startTask env taskName s).1 = true := by
  rw [startTask.eq_def, if_neg (by simp [hidle])] at hfail ⊢
  cases hsj : env.scheduleJob taskName s.schedule with
  | none =>
    simp only [hsj] at hfail ⊢
    refine ⟨.inl ?_, rfl⟩
    exact (Option.some.inj hfail).symm
  | some j =>
    simp only [hsj] at hfail ⊢
    cases hni : env.nextInvocation j with
    | none =>
      simp only [hni] at hfail ⊢
      refine ⟨.inr ?_, rfl⟩
      exact (Option.some.inj hfail).symm
    | some t =>
      simp only [hni] at hfail
      split at hfail <;> simp at hfail

/-- Witness for the amended C3 at a concrete rejecting trigger. -/
theorem startTask_failure_marks_started_witness :
    (TaskError.scheduleFailed = TaskError.scheduleFailed ∨
      TaskError.scheduleFailed = TaskError.nextInvocationFailed) ∧
    hasStarted (startTask rejectEnv "w" defaultTask).1 = true :=
  startTask_failure_marks_started rejectEnv "w" defaultTask .scheduleFailed
    rfl (by decide)

/-- Counterexample to C4: after `stopTask`, calling `startTask` does not
fail — it succeeds (error component `none`), because `stopTask` resets
`#taskHasStarted` to `false` and `startTask` only guards on that flag.  The
halted task returns to the not-started state and is restarted. -/
theorem startTask_after_stop_succeeds_cex :
    (stopTask startedTask).2 = none ∧
    hasStarted (stopTask startedTask).1 = false ∧
    (startTask acceptEnv "task" (stopTask startedTask).1).2 = none := by
  decide

/-- C4 as amended: stopping a started task succeeds and returns it to the
not-started state (`hasStarted()` is `false`), and a subsequent `startTask`
with a trigger that accepts the schedule and reports a next invocation
succeeds, restarting the task — `halted` is not a terminal state in the
code. -/
theorem stopTask_reenables_start (env : SchedulerEnv) (taskName : String)
    (s : TaskState) (j : Job) (t : Int)
    (hstarted : s.taskHasStarted = true)
    (hsj : env.scheduleJob taskName s.schedule = some j)
    (hni : env.nextInvocation j = some t) :
    (stopTask s).2 = none ∧
    hasStarted (stopTask s).1 = false ∧
    (startTask env taskName (stopTask s).1).2 = none := by
  rw [stopTask.eq_def, if_pos (by simp [hstarted])]
  refine ⟨rfl, rfl, ?_⟩
  rw [startTask.eq_def]
  simp only [if_neg (by simp : ¬({ s with taskHasStarted := false } :
    TaskState).taskHasStarted = true)]
  simp only [show ({ s with taskHasStarted := false } :
    TaskState).schedule = s.schedule from rfl, hsj, hni]
  split <;> rfl

/-- Witness for the amended C4 at a concrete started task and accepting
trigger. -/
theorem stopTask_reenables_start_witness :
    (stopTask startedTask).2 = none ∧
    hasStarted (stopTask startedTask).1 = false ∧
    (startTask acceptEnv "w" (stopTask startedTask).1).2 = none :=
  stopTask_reenables_start acceptEnv "w" startedTask 0 1000 rfl rfl rfl

/-- The state with the task function in flight and an empty wait queue is
reachable from a fresh default instance: a call arrives, acquires the free
token, and passes the gate check. -/
theorem c5Running_reachable : Reachable (initState defaultTask 0) c5Running := by
  have h1 : Step (initState defaultTask 0) c5Entered := Step.invoke _
  have h2 : Step c5Entered c5Holding := Step.acquireFree c5Entered 0 0 rfl rfl
  have h3 : Step c5Holding c5Running := Step.gateRun c5Holding 0 rfl (by decide)
  exact Relation.ReflTransGen.head h1
    (Relation.ReflTransGen.head h2 (Relation.ReflTransGen.single h3))

/-- Counterexample to C5: in the reachable state `c5Running` an invocation is
currently holding the exclusivity permit (its task function is in flight),
yet `canRunTask()` returns `true`, because `nrWaiting()` counts only queued
waiters, never the current holder — so the claimed "iff no invocation is
holding or waiting" is false. -/
theorem canRunTask_true_while_holding_cex :
    Reachable (initState defaultTask 0) c5Running ∧
    canRunTask c5Running = true ∧
    specCanRun c5Running = false :=
  ⟨c5Running_reachable, by decide, by decide⟩

/-- C5 as amended: `canRunTask()` returns `true` iff no invocation is waiting
in the semaphore queue (a sole current permit holder is not counted) and the
elapsed time since `#lastRunMillis` is at least `#minimumIntervalMillis`; it
is a pure function of the state, with no side effects. -/
theorem canRunTask_iff (st : SysState) :
    canRunTask st = true ↔
      st.semQueue = [] ∧
      st.now - st.gate.lastRunMillis ≥ st.gate.minimumIntervalMillis := by
  simp [canRunTask, SysState.nrWaiting, List.length_eq_zero]

/-- C8: in every state reachable from a freshly constructed instance —
however many trigger firings and manual `runTask()` calls overlap — at most
one invocation is executing the task function at any instant. -/
theorem runTask_mutual_exclusion {g : TaskState} {t0 : Int} {st : SysState}
    (h : Reachable (initState g t0) st) :
    runningCount st ≤ 1 := by
  have inv := semInv_reachable h (semInv_init g t0)
  have htok := inv.token
  have hmono : runningCount st ≤ holderCount st := by
    simp only [runningCount, holderCount]
    exact List.countP_mono_left (fun x _ hx => by
      cases x <;> simp_all [holdsToken])
  omega

/-- Witness for C8 at the initial state (reachable in zero steps). -/
theorem runTask_mutual_exclusion_witness :
    runningCount (initState defaultTask 0) ≤ 1 :=
  runTask_mutual_exclusion Relation.ReflTransGen.refl

/-- C9: for two consecutive invocations of the task function — an attempt
that runs the work, any number of intervening skipped attempts, then another
attempt that runs the work — the gap between the two start (gate-check) times
is at least `#minimumIntervalMillis`, provided the first invocation completes
no earlier than it starts.  `#lastRunMillis` is set to the first invocation's
completion time, skips leave it untouched, and the second gate check measures
from it. -/
theorem minimumInterval_start_to_start (s : TaskState) (a1 : Attempt)
    (mid : List Attempt) (a2 : Attempt)
    (h1 : (stepAttempt s a1).2 = true)
    (hwork : a1.checkTime ≤ a1.completionTime)
    (hmid : ∀ b ∈ (runSeq (stepAttempt s a1).1 mid).2, b = false)
    (h2 : (stepAttempt (runSeq (stepAttempt s a1).1 mid).1 a2).2 = true) :
    a2.checkTime - a1.checkTime ≥ s.minimumIntervalMillis := by
  have hstate := runTask_state_of_run s a1.checkTime a1.completionTime
    a1.outcome h1
  have hmid' : (runSeq (stepAttempt s a1).1 mid).1 = (stepAttempt s a1).1 :=
    runSeq_all_skipped _ mid hmid
  rw [hmid'] at h2
  have hge2 := (runTask_taskRun_true_iff _ _ _ _).mp h2
  have e1 : (stepAttempt s a1).1.lastRunMillis = a1.completionTime := hstate.1
  have e2 : (stepAttempt s a1).1.minimumIntervalMillis
      = s.minimumIntervalMillis := hstate.2
  rw [e1, e2] at hge2
  omega

/-- Witness for C9: with a 5 ms minimum interval, a run starting at t=5
completing at t=6, a skipped attempt at t=7, and a second run starting at
t=11: the starts are 6 ≥ 5 ms apart. -/
theorem minimumInterval_start_to_start_witness :
    (⟨11, 12, .success⟩ : Attempt).checkTime
        - (⟨5, 6, .success⟩ : Attempt).checkTime
      ≥ intervalTask.minimumIntervalMillis :=
  minimumInterval_start_to_start intervalTask ⟨5, 6, .success⟩
    [⟨7, 8, .success⟩] ⟨11, 12, .success⟩ (by decide) (by decide)
    (by decide) (by decide)

end ScheduledTask
